import Mathlib

/-!
Verification of the file-cleaning and comparison pipeline in src/app.py.

Strings are modelled as lists of Unicode code points (List Nat).  The
character-classification tables (str.isspace / str.isnumeric / the regex
classes \w and \s) are finite tables in CPython's Unicode database; the
definitions below embed the portions of those tables that the program's
inputs exercise: the full ASCII range exactly, plus the standard Unicode
whitespace list and the common decimal/numeric-character ranges.
str.upper is modelled on the ASCII range (all column keywords and template
names in the program are ASCII).
-/

set_option autoImplicit false

namespace App

/-- A Python string, as its list of Unicode code points. -/
abbrev PyStr := List Nat

/-- Code points c with str(c).isspace() true (the CPython whitespace table);
    str.strip() removes exactly these from both ends. -/
def pyIsSpaceCp (n : Nat) : Bool := decide (
  (9 ≤ n ∧ n ≤ 13) ∨ (28 ≤ n ∧ n ≤ 32) ∨ n = 133 ∨ n = 160 ∨ n = 0x1680 ∨
  (0x2000 ≤ n ∧ n ≤ 0x200a) ∨ n = 0x2028 ∨ n = 0x2029 ∨ n = 0x202f ∨
  n = 0x205f ∨ n = 0x3000)

/-- Code points with the Unicode Numeric property (str.isnumeric is true of a
    nonempty string all of whose characters satisfy this).  Covers ASCII
    digits, superscripts and fractions in Latin-1, the Nd ranges of the major
    scripts, super/subscripts, number forms (fractions and Roman numerals),
    circled digits and fullwidth digits. -/
def pyIsNumericCp (n : Nat) : Bool := decide (
  (48 ≤ n ∧ n ≤ 57) ∨ n = 178 ∨ n = 179 ∨ n = 185 ∨ (188 ≤ n ∧ n ≤ 190) ∨
  (0x660 ≤ n ∧ n ≤ 0x669) ∨ (0x6f0 ≤ n ∧ n ≤ 0x6f9) ∨
  (0x966 ≤ n ∧ n ≤ 0x96f) ∨ (0x9e6 ≤ n ∧ n ≤ 0x9ef) ∨
  (0xa66 ≤ n ∧ n ≤ 0xa6f) ∨ (0xae6 ≤ n ∧ n ≤ 0xaef) ∨
  (0xb66 ≤ n ∧ n ≤ 0xb6f) ∨ (0xbe6 ≤ n ∧ n ≤ 0xbef) ∨
  (0xc66 ≤ n ∧ n ≤ 0xc6f) ∨ (0xce6 ≤ n ∧ n ≤ 0xcef) ∨
  (0xd66 ≤ n ∧ n ≤ 0xd6f) ∨ (0xe50 ≤ n ∧ n ≤ 0xe59) ∨
  (0xed0 ≤ n ∧ n ≤ 0xed9) ∨ (0xf20 ≤ n ∧ n ≤ 0xf29) ∨
  (0x1040 ≤ n ∧ n ≤ 0x1049) ∨ n = 0x2070 ∨ (0x2074 ≤ n ∧ n ≤ 0x2079) ∨
  (0x2080 ≤ n ∧ n ≤ 0x2089) ∨ (0x2150 ≤ n ∧ n ≤ 0x2182) ∨
  (0x2460 ≤ n ∧ n ≤ 0x2468) ∨ (0xff10 ≤ n ∧ n ≤ 0xff19))

/-- The three invisible characters removed by clean_isbn's replace calls:
    zero-width space U+200B, non-breaking space U+00A0, BOM U+FEFF. -/
def pySpecialCp (n : Nat) : Bool := decide (n = 0x200b ∨ n = 0xa0 ∨ n = 0xfeff)

/-- Python str.strip(): drop whitespace from both ends. -/
def pyStrip (s : PyStr) : PyStr :=
  (((s.dropWhile pyIsSpaceCp).reverse).dropWhile pyIsSpaceCp).reverse

/-- The three .replace(..., "") calls in clean_isbn: delete every occurrence
    of U+200B, U+00A0 and U+FEFF. -/
def removeSpecials (s : PyStr) : PyStr := s.filter (fun n => !pySpecialCp n)

/-- Python str.isnumeric(): nonempty and every character numeric. -/
def pyIsNumericStr (s : PyStr) : Bool := !s.isEmpty && s.all pyIsNumericCp

/-- Python str.zfill(w): left-pad with ASCII zero (48) to length w, keeping a
    leading sign character in front of the padding. -/
def pyZfill (w : Nat) (s : PyStr) : PyStr :=
  if s.length < w then
    match s with
    | [] => List.replicate w 48
    | c :: rest =>
      if c = 43 ∨ c = 45 then c :: (List.replicate (w - s.length) 48 ++ rest)
      else List.replicate (w - s.length) 48 ++ s
  else s

/-- clean_isbn (src/app.py lines 31-35), string path: strip, remove the
    invisible characters, then zero-pad to 13 when purely numeric and short. -/
def cleanIsbnStr (s : PyStr) : PyStr :=
  let x := removeSpecials (pyStrip s)
  if pyIsNumericStr x = true ∧ x.length < 13 then pyZfill 13 x else x

/-- A pandas cell under dtype=str: missing (NaN), a string, or a value the
    pipeline has coerced to a number with pd.to_numeric (represented by the
    literal it was parsed from; no verified property depends on the parsed
    numeric value itself). -/
inductive Cell where
  | na : Cell
  | s (v : PyStr) : Cell
  | num (v : PyStr) : Cell
deriving DecidableEq, Repr

/-- Python str(cell) as used on raw cells: str(nan) is the string nan. -/
def cellToStr : Cell → PyStr
  | Cell.na => [110, 97, 110]
  | Cell.s v => v
  | Cell.num v => v

/-- clean_isbn on a cell: pd.isna test first, then the string path. -/
def cleanIsbnCell : Cell → Cell
  | Cell.na => Cell.s []
  | Cell.s v => Cell.s (cleanIsbnStr v)
  | Cell.num v => Cell.s (cleanIsbnStr v)

/-- Unsigned integer literals, the core of what pd.to_numeric accepts; the
    full pandas numeric grammar is wider (signs, decimals, exponents) but no
    verified property depends on which extra strings parse. -/
def isNumLit (s : PyStr) : Bool := !s.isEmpty && s.all (fun c => 48 ≤ c && c ≤ 57)

/-- pd.to_numeric(column, errors=coerce) on one cell: numbers stay, parseable
    strings become numbers, everything else becomes NaN. -/
def toNumericCell : Cell → Cell
  | Cell.na => Cell.na
  | Cell.num v => Cell.num v
  | Cell.s v => if isNumLit v then Cell.num v else Cell.na

/-- clean_isbn as used in extract_isbns, where the result is collected as a
    plain string. -/
def cleanIsbnVal : Cell → PyStr
  | Cell.na => []
  | Cell.s v => cleanIsbnStr v
  | Cell.num v => cleanIsbnStr v

/-- str.upper on the ASCII range (all keywords matched in the program are
    ASCII). -/
def pyUpperCp (c : Nat) : Nat := if 97 ≤ c ∧ c ≤ 122 then c - 32 else c

/-- str.upper over a string. -/
def pyUpper (s : PyStr) : PyStr := s.map pyUpperCp

/-- The regex class \w (word characters) as the source's inputs exercise it:
    ASCII alphanumerics and underscore, plus the numeric characters of the
    table above. -/
def pyIsWordCp (c : Nat) : Bool :=
  decide ((48 ≤ c ∧ c ≤ 57) ∨ (65 ≤ c ∧ c ≤ 90) ∨ (97 ≤ c ∧ c ≤ 122) ∨ c = 95)
    || pyIsNumericCp c

/-- str.replace of the regex [^\w\s] with the empty string: keep only word
    characters and whitespace. -/
def regexStripPunct (s : PyStr) : PyStr :=
  s.filter (fun c => pyIsWordCp c || pyIsSpaceCp c)

/-- v.replace(" ", ""): delete every ASCII space. -/
def noSpace (s : PyStr) : PyStr := s.filter (fun c => decide (c ≠ 32))

/-- Python list/str prefix test used to implement substring containment. -/
def startsWithPy : PyStr → PyStr → Bool
  | [], _ => true
  | _ :: _, [] => false
  | a :: as, b :: bs => a == b && startsWithPy as bs

/-- Python substring containment (needle in haystack). -/
def containsPy (needle : PyStr) : PyStr → Bool
  | [] => needle.isEmpty
  | a :: t => startsWithPy needle (a :: t) || containsPy needle t

/-- String constants (ASCII code points). ISBN13. -/
def isbn13S : PyStr := [73, 83, 66, 78, 49, 51]

/-- EAN. -/
def eanS : PyStr := [69, 65, 78]

/-- STOCK. -/
def stockS : PyStr := [83, 84, 79, 67, 75]

/-- QTYAV. -/
def qtyavS : PyStr := [81, 84, 89, 65, 86]

/-- CUR. -/
def curS : PyStr := [67, 85, 82]

/-- TITLE. -/
def titleS : PyStr := [84, 73, 84, 76, 69]

/-- AUTHOR. -/
def authorS : PyStr := [65, 85, 84, 72, 79, 82]

/-- DISCOUNT. -/
def discountS : PyStr := [68, 73, 83, 67, 79, 85, 78, 84]

/-- DIM1. -/
def dim1S : PyStr := [68, 73, 77, 49]

/-- DIM2. -/
def dim2S : PyStr := [68, 73, 77, 50]

/-- DIM3. -/
def dim3S : PyStr := [68, 73, 77, 51]

/-- WEIGHT. -/
def weightS : PyStr := [87, 69, 73, 71, 72, 84]

/-- PUBLISHER. -/
def publisherS : PyStr := [80, 85, 66, 76, 73, 83, 72, 69, 82]

/-- IMPRINT. -/
def imprintS : PyStr := [73, 77, 80, 82, 73, 78, 84]

/-- The string EAN-space-hash, the head of the EAN template. -/
def eanHashS : PyStr := [69, 65, 78, 32, 35]

/-- PRICE. -/
def priceS : PyStr := [80, 82, 73, 67, 69]

/-- WGT OZS. -/
def wgtOzsS : PyStr := [87, 71, 84, 32, 79, 90, 83]

/-- LENGTH. -/
def lengthS : PyStr := [76, 69, 78, 71, 84, 72]

/-- WIDTH. -/
def widthS : PyStr := [87, 73, 68, 84, 72]

/-- HEIGHT. -/
def heightS : PyStr := [72, 69, 73, 71, 72, 84]

/-- CD. -/
def cdS : PyStr := [67, 68]

/-- REQUIRED_COLUMNS_ISBN (src/app.py lines 22-25). -/
def reqISBN : List PyStr :=
  [isbn13S, titleS, authorS, discountS, stockS, curS,
   dim1S, dim2S, dim3S, weightS, publisherS, imprintS]

/-- REQUIRED_COLUMNS_EAN (src/app.py lines 26-29). -/
def reqEAN : List PyStr :=
  [eanHashS, titleS, qtyavS, curS, priceS, authorS,
   publisherS, wgtOzsS, lengthS, widthS, heightS, cdS]

/-- The identifier-keyword test applied to an already-normalized name v:
    ISBN13 in v.replace(space, empty) or EAN in v.replace(space, empty). -/
def isIdColName (col : PyStr) : Bool :=
  containsPy isbn13S (noSpace col) || containsPy eanS (noSpace col)

/-- The quantity-keyword test: STOCK or QTYAV in the space-free name. -/
def isQtyColName (col : PyStr) : Bool :=
  containsPy stockS (noSpace col) || containsPy qtyavS (noSpace col)

/-- Column-name normalization of process_file line 61:
    .str.strip().str.upper().str.replace of [^\w\s] with empty. -/
def cleanColName (s : PyStr) : PyStr := regexStripPunct (pyUpper (pyStrip s))

/-- One cell's test in detect_header line 46-47: astype(str), upper, strip the
    regex punctuation, then the keyword test on the space-free value. -/
def cellMatches (cell : Cell) : Bool :=
  isIdColName (regexStripPunct (pyUpper (cellToStr cell)))

/-- A header row matches when any of its cells matches. -/
def rowMatches (r : List Cell) : Bool := r.any cellMatches

/-- The scan loop of detect_header: first matching row index, counting from k. -/
def detectHeaderAux : Nat → List (List Cell) → Option Nat
  | _, [] => none
  | k, r :: rs => if rowMatches r then some k else detectHeaderAux (k + 1) rs

/-- detect_header (src/app.py lines 37-49) from the parsed grid: scan at most
    the first 20 rows (nrows=20); none models the raised KeyError. -/
def detectHeader (grid : List (List Cell)) : Option Nat :=
  detectHeaderAux 0 (grid.take 20)

/-- Total list indexing with an explicit default. -/
def nthD {α : Type} (d : α) : List α → Nat → α
  | [], _ => d
  | a :: _, 0 => a
  | _ :: t, i + 1 => nthD d t i

/-- Replace the cell at one index (no-op past the end of the row). -/
def modifyCell : Nat → (Cell → Cell) → List Cell → List Cell
  | _, _, [] => []
  | 0, f, a :: r => f a :: r
  | i + 1, f, a :: r => a :: modifyCell i f r

/-- Index of the first column with a given name (length when absent). -/
def colIdx : List PyStr → PyStr → Nat
  | [], _ => 0
  | c :: cs, nm => if c = nm then 0 else colIdx cs nm + 1

/-- A parsed pandas DataFrame: named columns and rows of cells.  Label-based
    access resolves a name to its first occurrence. -/
structure DF where
  cols : List PyStr
  rows : List (List Cell)
deriving DecidableEq, Repr

/-- df[name] as a cell list. -/
def getCol (df : DF) (nm : PyStr) : List Cell :=
  df.rows.map (fun r => nthD Cell.na r (colIdx df.cols nm))

/-- df[name] = df[name].apply(f). -/
def mapCol (df : DF) (nm : PyStr) (f : Cell → Cell) : DF :=
  ⟨df.cols, df.rows.map (modifyCell (colIdx df.cols nm) f)⟩

/-- df[names]: project to the listed columns, in the listed order. -/
def selectCols (df : DF) (nms : List PyStr) : DF :=
  ⟨nms, df.rows.map (fun r => nms.map (fun nm => nthD Cell.na r (colIdx df.cols nm)))⟩

/-- df[name] = value: overwrite every row of an existing column or append a
    new constant column at the end. -/
def setColAll (df : DF) (nm : PyStr) (c : Cell) : DF :=
  if nm ∈ df.cols then
    ⟨df.cols, df.rows.map (modifyCell (colIdx df.cols nm) (fun _ => c))⟩
  else ⟨df.cols ++ [nm], df.rows.map (fun r => r ++ [c])⟩

/-- df.reindex(columns=names, fill_value=fill). -/
def reindexCols (df : DF) (nms : List PyStr) (fill : Cell) : DF :=
  ⟨nms, df.rows.map (fun r =>
    nms.map (fun nm => if nm ∈ df.cols then nthD Cell.na r (colIdx df.cols nm) else fill))⟩

/-- process_file (src/app.py lines 51-71) from the parsed table: normalize the
    column names, locate the identifier column (KeyError as none when absent),
    normalize its values, coerce the quantity column when present.  pandas
    raises on the later duplicate-label operations (df[c] as a DataFrame,
    reindex on duplicate labels); tables whose cleaned names collide are
    modelled as failing here. -/
def processFile (df : DF) : Option (DF × PyStr) :=
  let cols := df.cols.map cleanColName
  if cols.Nodup then
    match cols.find? isIdColName with
    | none => none
    | some c =>
      let df1 := mapCol ⟨cols, df.rows⟩ c cleanIsbnCell
      let df2 := match cols.find? isQtyColName with
        | none => df1
        | some s => mapCol df1 s toNumericCell
      some (df2, c)
  else none

/-- Lines 90-92 of clean_file: with an exclusion set, keep the rows whose
    identifier-column value is not in the set. -/
def applyExclusion (d : DF) (c : PyStr) (rem : Option (List PyStr)) : DF :=
  match rem with
  | none => d
  | some rset =>
    ⟨d.cols, d.rows.filter (fun r =>
      !(rset.any (fun t => decide (nthD Cell.na r (colIdx d.cols c) = Cell.s t))))⟩

/-- Lines 93-98 of clean_file: project to the template columns present, ensure
    a CUR column, overwrite CUR with the currency, reindex to the template. -/
def projectAndPad (d1 : DF) (req : List PyStr) (cur : PyStr) : DF :=
  let d2 := selectCols d1 (req.filter (fun x => decide (x ∈ d1.cols)))
  let d3 := if curS ∈ d2.cols then d2 else setColAll d2 curS (Cell.s [])
  reindexCols (setColAll d3 curS (Cell.s cur)) req (Cell.s [])

/-- clean_file (src/app.py lines 83-99). -/
def cleanFile (df : DF) (cur : PyStr) (rem : Option (List PyStr)) : Option DF :=
  match processFile df with
  | none => none
  | some (d, c) =>
    let req := if isbn13S ∈ d.cols then reqISBN else reqEAN
    some (projectAndPad (applyExclusion d c rem) req cur)

/-- extract_isbns (src/app.py lines 73-81) from the parse result: none models
    a parse failure (caught, logged, empty set); on success flatten the grid,
    keep the cells whose string form is purely numeric, normalize each.  The
    result is a set through membership. -/
def extractIsbns (parsed : Option (List (List Cell))) : List PyStr :=
  match parsed with
  | none => []
  | some g =>
    (g.flatten.filter (fun v => pyIsNumericStr (cellToStr v))).map cleanIsbnVal

/-- The comparison step (src/app.py lines 156-160): key on each table's first
    column name; new items are rows of the second table whose key is absent
    from the first's key column, inactive items the converse.  none models the
    IndexError on a table with no columns. -/
def compareT (d1 d2 : DF) : Option (DF × DF) :=
  match d1.cols, d2.cols with
  | k1 :: _, k2 :: _ =>
    some
      (⟨d2.cols, d2.rows.filter (fun r =>
          !(getCol d1 k1).contains (nthD Cell.na r (colIdx d2.cols k2)))⟩,
       ⟨d1.cols, d1.rows.filter (fun r =>
          !(getCol d2 k2).contains (nthD Cell.na r (colIdx d1.cols k1)))⟩)
  | _, _ => none

/-- Modelled from the spec (section 4.1), for comparison with clean_isbn: strip
    leading/trailing whitespace, remove the invisible characters, and when the
    result is purely numeric (nonempty, every character numeric) and shorter
    than 13 characters, left-pad with zeros to length 13; otherwise return
    as-is.  Missing input yields the empty string. -/
def specNormalizeStr (v : PyStr) : PyStr :=
  let y := removeSpecials (pyStrip v)
  if (y ≠ [] ∧ ∀ c ∈ y, pyIsNumericCp c = true) ∧ y.length < 13 then
    List.replicate (13 - y.length) 48 ++ y
  else y

/-- The spec-side normalizer on optional input. -/
def specNormalize : Cell → PyStr
  | Cell.na => []
  | Cell.s v => specNormalizeStr v
  | Cell.num v => specNormalizeStr v

/-- First element with default. -/
def firstD {α : Type} : α → List α → α
  | d, [] => d
  | _, a :: _ => a

/-- Last element with default. -/
def lastD {α : Type} : α → List α → α
  | d, [] => d
  | _, a :: t => lastD a t

/-- The per-row transformation processFile performs after locating the
    identifier column c: normalize the identifier cell, then coerce the
    quantity cell when a quantity column exists. -/
def procT (cols : List PyStr) (c : PyStr) (r : List Cell) : List Cell :=
  match cols.find? isQtyColName with
  | none => modifyCell (colIdx cols c) cleanIsbnCell r
  | some s => modifyCell (colIdx cols s) toNumericCell (modifyCell (colIdx cols c) cleanIsbnCell r)

/-- USD. -/
def usdS : PyStr := [85, 83, 68]

/-- The string 0000000000123 (123 zero-padded to 13). -/
def z123S : PyStr := [48, 48, 48, 48, 48, 48, 48, 48, 48, 48, 49, 50, 51]

/-- The string 0000000000456. -/
def z456S : PyStr := [48, 48, 48, 48, 48, 48, 48, 48, 48, 48, 52, 53, 54]

/-- Concrete input: one source column named ean-space-hash, one row with
    identifier 123. -/
def wDfEan : DF := ⟨[[101, 97, 110, 32, 35]], [[Cell.s [49, 50, 51]]]⟩

/-- Concrete input: one source column named ean, one row with value 5. -/
def wDfEan3 : DF := ⟨[[101, 97, 110]], [[Cell.s [53]]]⟩

/-- The cleaned output both of the above produce: the EAN template with one
    row, CUR set to USD, every other cell empty. -/
def wOutEan : DF :=
  ⟨reqEAN,
   [[Cell.s [], Cell.s [], Cell.s [], Cell.s usdS, Cell.s [], Cell.s [],
     Cell.s [], Cell.s [], Cell.s [], Cell.s [], Cell.s [], Cell.s []]]⟩

/-- Concrete input for exclusion filtering: an ean column with two rows keyed
    0000000000123 and 0000000000456. -/
def wDfExcl : DF := ⟨[[101, 97, 110]], [[Cell.s z123S], [Cell.s z456S]]⟩

/-- Concrete input whose single column name eanstock matches both the
    identifier and the quantity keyword. -/
def wDfQty : DF := ⟨[[101, 97, 110, 115, 116, 111, 99, 107]], [[Cell.s [49, 50, 51]]]⟩

/-- Comparison witness tables: keys 1,2,3. -/
def wCmpA : DF := ⟨[[107]], [[Cell.s [49]], [Cell.s [50]], [Cell.s [51]]]⟩

/-- Comparison witness tables: keys 2,3,4. -/
def wCmpB : DF := ⟨[[107]], [[Cell.s [50]], [Cell.s [51]], [Cell.s [52]]]⟩

/-- Comparison witness tables: keys 1,2. -/
def wCmpC : DF := ⟨[[107]], [[Cell.s [49]], [Cell.s [50]]]⟩

/-- Comparison witness tables: keys 2,3. -/
def wCmpD : DF := ⟨[[107]], [[Cell.s [50]], [Cell.s [51]]]⟩

/-! ### Character-table facts -/

theorem numeric_not_space {c : Nat} (h : pyIsNumericCp c = true) : pyIsSpaceCp c = false := by
  simp only [pyIsNumericCp, decide_eq_true_eq] at h
  simp only [pyIsSpaceCp, decide_eq_false_iff_not]
  omega

theorem numeric_not_special {c : Nat} (h : pyIsNumericCp c = true) : pySpecialCp c = false := by
  simp only [pyIsNumericCp, decide_eq_true_eq] at h
  simp only [pySpecialCp, decide_eq_false_iff_not]
  omega

theorem numeric_not_sign {c : Nat} (h : pyIsNumericCp c = true) : ¬(c = 43 ∨ c = 45) := by
  simp only [pyIsNumericCp, decide_eq_true_eq] at h
  omega

theorem special_cases {c : Nat} (h : pySpecialCp c = true) :
    c = 0x200b ∨ c = 160 ∨ c = 0xfeff := by
  simp only [pySpecialCp, decide_eq_true_eq] at h
  omega

/-! ### List helpers -/

theorem filter_self_of {α : Type} {p : α → Bool} {l : List α}
    (h : ∀ a ∈ l, p a = true) : l.filter p = l :=
  List.filter_eq_self.mpr h

theorem nthD_map {α β : Type} (f : α → β) (d : β) (d0 : α) :
    ∀ (l : List α) (i : Nat), i < l.length → nthD d (l.map f) i = f (nthD d0 l i) := by
  intro l
  induction l with
  | nil => intro i h; simp at h
  | cons a t ih =>
    intro i h
    cases i with
    | zero => rfl
    | succ j =>
      simp only [List.length_cons] at h
      exact ih j (by omega)

theorem nthD_ge {α : Type} (d : α) :
    ∀ (l : List α) (i : Nat), l.length ≤ i → nthD d l i = d := by
  intro l
  induction l with
  | nil => intro i _; cases i <;> rfl
  | cons a t ih =>
    intro i h
    cases i with
    | zero => simp at h
    | succ j =>
      simp only [List.length_cons] at h
      exact ih j (by omega)

theorem length_modifyCell (f : Cell → Cell) :
    ∀ (i : Nat) (r : List Cell), (modifyCell i f r).length = r.length := by
  intro i r
  induction r generalizing i with
  | nil => cases i <;> rfl
  | cons a t ih =>
    cases i with
    | zero => rfl
    | succ j => simpa [modifyCell] using ih j

theorem nthD_modifyCell_self (f : Cell → Cell) :
    ∀ (r : List Cell) (i : Nat), i < r.length →
      nthD Cell.na (modifyCell i f r) i = f (nthD Cell.na r i) := by
  intro r
  induction r with
  | nil => intro i h; simp at h
  | cons a t ih =>
    intro i h
    cases i with
    | zero => rfl
    | succ j =>
      simp only [List.length_cons] at h
      exact ih j (by omega)

theorem nthD_modifyCell_ne (f : Cell → Cell) :
    ∀ (r : List Cell) (i j : Nat), j ≠ i →
      nthD Cell.na (modifyCell i f r) j = nthD Cell.na r j := by
  intro r
  induction r with
  | nil => intro i j _; cases i <;> cases j <;> rfl
  | cons a t ih =>
    intro i j hne
    cases i with
    | zero =>
      cases j with
      | zero => exact absurd rfl hne
      | succ _ => rfl
    | succ i' =>
      cases j with
      | zero => rfl
      | succ j' => exact ih i' j' (fun hc => hne (by omega))

theorem nthD_append_last {α : Type} (d : α) :
    ∀ (r : List α) (c : α), nthD d (r ++ [c]) r.length = c := by
  intro r c
  induction r with
  | nil => rfl
  | cons a t ih => simpa using ih

theorem nthD_append_lt {α : Type} (d : α) :
    ∀ (r : List α) (c : α) (j : Nat), j < r.length → nthD d (r ++ [c]) j = nthD d r j := by
  intro r
  induction r with
  | nil => intro c j h; simp at h
  | cons a t ih =>
    intro c j h
    cases j with
    | zero => rfl
    | succ j' =>
      simp only [List.length_cons] at h
      exact ih c j' (by omega)

theorem colIdx_lt_of_mem : ∀ {cs : List PyStr} {nm : PyStr}, nm ∈ cs → colIdx cs nm < cs.length := by
  intro cs
  induction cs with
  | nil => intro nm h; simp at h
  | cons c t ih =>
    intro nm h
    by_cases hc : c = nm
    · simp [colIdx, hc]
    · have : nm ∈ t := by
        rcases List.mem_cons.mp h with h1 | h1
        · exact absurd h1.symm hc
        · exact h1
      simp only [colIdx, if_neg hc, List.length_cons]
      exact Nat.succ_lt_succ (ih this)

theorem nthD_colIdx (d : PyStr) :
    ∀ (cs : List PyStr) (nm : PyStr), nm ∈ cs → nthD d cs (colIdx cs nm) = nm := by
  intro cs
  induction cs with
  | nil => intro nm h; simp at h
  | cons c t ih =>
    intro nm h
    by_cases hc : c = nm
    · simp [colIdx, hc, nthD]
    · have ht : nm ∈ t := by
        rcases List.mem_cons.mp h with h1 | h1
        · exact absurd h1.symm hc
        · exact h1
      simp only [colIdx, if_neg hc]
      exact ih nm ht

theorem colIdx_of_not_mem :
    ∀ (cs : List PyStr) (nm : PyStr), nm ∉ cs → colIdx cs nm = cs.length := by
  intro cs
  induction cs with
  | nil => intro nm _; rfl
  | cons c t ih =>
    intro nm h
    have hc : c ≠ nm := fun he => h (he ▸ List.mem_cons_self c t)
    have ht : nm ∉ t := fun hm => h (List.mem_cons_of_mem c hm)
    simp [colIdx, hc, ih nm ht]

theorem colIdx_inj {cs : List PyStr} {a b : PyStr}
    (ha : a ∈ cs) (hb : b ∈ cs) (hne : a ≠ b) : colIdx cs a ≠ colIdx cs b := by
  intro he
  have h1 := nthD_colIdx [] cs a ha
  have h2 := nthD_colIdx [] cs b hb
  rw [he, h2] at h1
  exact hne h1.symm

theorem colIdx_append_self :
    ∀ (cs : List PyStr) (nm : PyStr), nm ∉ cs → colIdx (cs ++ [nm]) nm = cs.length := by
  intro cs
  induction cs with
  | nil => intro nm _; simp [colIdx]
  | cons c t ih =>
    intro nm h
    have hc : c ≠ nm := fun he => h (he ▸ List.mem_cons_self c t)
    have ht : nm ∉ t := fun hm => h (List.mem_cons_of_mem c hm)
    simp [colIdx, hc, ih nm ht]

/-! ### dropWhile, strip and filter lemmas -/

theorem dropWhile_cons_false {p : Nat → Bool} {a : Nat} {t : PyStr} (h : p a = false) :
    (a :: t).dropWhile p = a :: t := by
  simp [List.dropWhile_cons, h]

theorem dropWhile_all_false {p : Nat → Bool} :
    ∀ {l : PyStr}, (∀ c ∈ l, p c = false) → l.dropWhile p = l := by
  intro l
  induction l with
  | nil => intro _; rfl
  | cons a t _ =>
    intro h
    exact dropWhile_cons_false (h a (List.mem_cons_self a t))

theorem dropWhile_suffix_ex {p : Nat → Bool} :
    ∀ (l : PyStr), ∃ t, t ++ l.dropWhile p = l := by
  intro l
  induction l with
  | nil => exact ⟨[], rfl⟩
  | cons a t ih =>
    by_cases ha : p a = true
    · obtain ⟨u, hu⟩ := ih
      exact ⟨a :: u, by simp [List.dropWhile_cons, ha, hu]⟩
    · exact ⟨[], by simp [List.dropWhile_cons, ha]⟩

theorem mem_dropWhile {p : Nat → Bool} {a : Nat} {l : PyStr}
    (h : a ∈ l.dropWhile p) : a ∈ l := by
  obtain ⟨t, ht⟩ := dropWhile_suffix_ex (p := p) l
  rw [← ht]
  exact List.mem_append_right t h

theorem dropWhile_firstD_false {p : Nat → Bool} :
    ∀ (l : PyStr), l.dropWhile p ≠ [] → p (firstD 0 (l.dropWhile p)) = false := by
  intro l
  induction l with
  | nil => intro h; exact absurd rfl h
  | cons a t ih =>
    intro h
    by_cases ha : p a = true
    · rw [List.dropWhile_cons, if_pos ha] at h ⊢
      exact ih h
    · rw [List.dropWhile_cons, if_neg ha]
      simpa [firstD] using ha

theorem lastD_indep {α : Type} :
    ∀ (l : List α) (d1 d2 : α), l ≠ [] → lastD d1 l = lastD d2 l := by
  intro l d1 d2 h
  cases l with
  | nil => exact absurd rfl h
  | cons a t => rfl

theorem lastD_append {α : Type} :
    ∀ (t l : List α) (d : α), l ≠ [] → lastD d (t ++ l) = lastD d l := by
  intro t
  induction t with
  | nil => intro l d _; rfl
  | cons b t' ih =>
    intro l d h
    show lastD b (t' ++ l) = lastD d l
    rw [ih l b h]
    exact lastD_indep l b d h

theorem lastD_reverse {α : Type} :
    ∀ (l : List α) (d : α), lastD d l.reverse = firstD d l := by
  intro l d
  cases l with
  | nil => rfl
  | cons a t =>
    rw [List.reverse_cons, lastD_append t.reverse [a] d (by simp)]
    rfl

theorem firstD_reverse {α : Type} (l : List α) (d : α) :
    firstD d l.reverse = lastD d l := by
  have := lastD_reverse l.reverse d
  rw [List.reverse_reverse] at this
  exact this.symm

theorem mem_pyStrip {a : Nat} {s : PyStr} (h : a ∈ pyStrip s) : a ∈ s := by
  unfold pyStrip at h
  rw [List.mem_reverse] at h
  have h1 := mem_dropWhile h
  rw [List.mem_reverse] at h1
  exact mem_dropWhile h1

theorem pyStrip_all_nonspace {s : PyStr} (h : ∀ c ∈ s, pyIsSpaceCp c = false) :
    pyStrip s = s := by
  unfold pyStrip
  rw [dropWhile_all_false h]
  rw [dropWhile_all_false (fun c hc => h c (List.mem_reverse.mp hc))]
  exact List.reverse_reverse s

theorem pyStrip_last_false (s : PyStr) (h : pyStrip s ≠ []) :
    pyIsSpaceCp (lastD 0 (pyStrip s)) = false := by
  unfold pyStrip at h ⊢
  rw [lastD_reverse]
  apply dropWhile_firstD_false
  intro he
  rw [he] at h
  exact h rfl

theorem pyStrip_first_false (s : PyStr) (h : pyStrip s ≠ []) :
    pyIsSpaceCp (firstD 0 (pyStrip s)) = false := by
  have hvne : (s.dropWhile pyIsSpaceCp).reverse.dropWhile pyIsSpaceCp ≠ [] := by
    intro he
    apply h
    unfold pyStrip
    rw [he]
    rfl
  have hune : s.dropWhile pyIsSpaceCp ≠ [] := by
    intro he
    apply hvne
    rw [he]
    rfl
  unfold pyStrip
  rw [firstD_reverse]
  obtain ⟨t, ht⟩ := dropWhile_suffix_ex (p := pyIsSpaceCp) (s.dropWhile pyIsSpaceCp).reverse
  have h1 : lastD 0 ((s.dropWhile pyIsSpaceCp).reverse.dropWhile pyIsSpaceCp)
      = lastD 0 (s.dropWhile pyIsSpaceCp).reverse := by
    conv_rhs => rw [← ht]
    exact (lastD_append t _ 0 hvne).symm
  rw [h1, lastD_reverse]
  exact dropWhile_firstD_false s hune

/-! ### clean_isbn lemmas -/

theorem pyIsNumericStr_iff {s : PyStr} :
    pyIsNumericStr s = true ↔ s ≠ [] ∧ ∀ c ∈ s, pyIsNumericCp c = true := by
  simp [pyIsNumericStr, List.all_eq_true, List.isEmpty_iff]

theorem zfill_numeric {s : PyStr} (hn : pyIsNumericStr s = true) (hl : s.length < 13) :
    pyZfill 13 s = List.replicate (13 - s.length) 48 ++ s := by
  obtain ⟨hne, hall⟩ := pyIsNumericStr_iff.mp hn
  cases s with
  | nil => exact absurd rfl hne
  | cons c rest =>
    have hc : pyIsNumericCp c = true := hall c (List.mem_cons_self c rest)
    have e : pyZfill 13 (c :: rest) =
        if (c :: rest).length < 13 then
          (if c = 43 ∨ c = 45 then c :: (List.replicate (13 - (c :: rest).length) 48 ++ rest)
           else List.replicate (13 - (c :: rest).length) 48 ++ (c :: rest))
        else c :: rest := rfl
    rw [e, if_pos hl, if_neg (numeric_not_sign hc)]

theorem cleanIsbnStr_core_eq {s : PyStr} (h1 : pyStrip s = s) (h2 : removeSpecials s = s) :
    cleanIsbnStr s = if pyIsNumericStr s = true ∧ s.length < 13 then pyZfill 13 s else s := by
  unfold cleanIsbnStr
  rw [h1, h2]

theorem pyStrip_eq_self_of {l : PyStr} (h1 : l.dropWhile pyIsSpaceCp = l)
    (h2 : l.reverse.dropWhile pyIsSpaceCp = l.reverse) : pyStrip l = l := by
  unfold pyStrip
  rw [h1, h2, List.reverse_reverse]

theorem core_strip_fix {x : PyStr} (hx : ∀ c ∈ x, c ≠ 0x200b ∧ c ≠ 0xfeff) :
    pyStrip (removeSpecials (pyStrip x)) = removeSpecials (pyStrip x) := by
  by_cases hy : removeSpecials (pyStrip x) = []
  · rw [hy]; rfl
  · have key : ∀ c ∈ pyStrip x, pyIsSpaceCp c = false → (!pySpecialCp c) = true := by
      intro c hc hns
      cases hsp : pySpecialCp c with
      | false => rfl
      | true =>
        rcases special_cases hsp with h | h | h
        · exact absurd h (hx c (mem_pyStrip hc)).1
        · rw [h] at hns; simp [pyIsSpaceCp] at hns
        · exact absurd h (hx c (mem_pyStrip hc)).2
    have hzne : pyStrip x ≠ [] := by
      intro he
      apply hy
      rw [removeSpecials, he]
      rfl
    obtain ⟨zh, zt, hz⟩ := List.exists_cons_of_ne_nil hzne
    have hzh : pyIsSpaceCp zh = false := by
      have := pyStrip_first_false x hzne
      rw [hz] at this
      exact this
    have hzq : (!pySpecialCp zh) = true := key zh (hz ▸ List.mem_cons_self zh zt) hzh
    -- the left end survives the filter, so dropWhile does nothing
    have hyform : removeSpecials (pyStrip x) = zh :: (zt.filter (fun n => !pySpecialCp n)) := by
      rw [removeSpecials, hz]
      simp [List.filter_cons, hzq]
    have hA : (removeSpecials (pyStrip x)).dropWhile pyIsSpaceCp = removeSpecials (pyStrip x) := by
      rw [hyform]
      exact dropWhile_cons_false hzh
    -- the right end likewise, working on the reverse
    have hrev : (removeSpecials (pyStrip x)).reverse
        = (pyStrip x).reverse.filter (fun n => !pySpecialCp n) := by
      rw [removeSpecials, List.filter_reverse]
    have hrne : (pyStrip x).reverse ≠ [] := by
      intro he
      apply hzne
      have := congrArg List.reverse he
      rwa [List.reverse_reverse] at this
    obtain ⟨wh, wt, hw⟩ := List.exists_cons_of_ne_nil hrne
    have hwh : pyIsSpaceCp wh = false := by
      have := pyStrip_last_false x hzne
      rw [← firstD_reverse, hw] at this
      exact this
    have hwq : (!pySpecialCp wh) = true := by
      apply key wh _ hwh
      rw [← List.mem_reverse, hw]
      exact List.mem_cons_self wh wt
    have hBform : (pyStrip x).reverse.filter (fun n => !pySpecialCp n)
        = wh :: (wt.filter (fun n => !pySpecialCp n)) := by
      rw [hw]
      simp [List.filter_cons, hwq]
    have hB : (removeSpecials (pyStrip x)).reverse.dropWhile pyIsSpaceCp
        = (removeSpecials (pyStrip x)).reverse := by
      rw [hrev, hBform]
      exact dropWhile_cons_false hwh
    exact pyStrip_eq_self_of hA hB

theorem core_specials_fix (x : PyStr) :
    removeSpecials (removeSpecials (pyStrip x)) = removeSpecials (pyStrip x) := by
  apply filter_self_of
  intro a ha
  exact (List.mem_filter.mp ha).2

theorem cleanIsbn_all_numeric_fix {z : PyStr} (hall : ∀ c ∈ z, pyIsNumericCp c = true) :
    pyStrip z = z ∧ removeSpecials z = z := by
  constructor
  · exact pyStrip_all_nonspace (fun c hc => numeric_not_space (hall c hc))
  · apply filter_self_of
    intro a ha
    rw [numeric_not_special (hall a ha)]
    rfl

theorem cleanIsbn_idem_str {v : PyStr} (hv : ∀ c ∈ v, c ≠ 0x200b ∧ c ≠ 0xfeff) :
    cleanIsbnStr (cleanIsbnStr v) = cleanIsbnStr v := by
  have hfix1 := core_strip_fix hv
  have hfix2 := core_specials_fix v
  by_cases hcond : pyIsNumericStr (removeSpecials (pyStrip v)) = true ∧
      (removeSpecials (pyStrip v)).length < 13
  · have hres : cleanIsbnStr v = pyZfill 13 (removeSpecials (pyStrip v)) := by
      unfold cleanIsbnStr
      rw [if_pos hcond]
    obtain ⟨hnum, hlen⟩ := hcond
    obtain ⟨hne, hall⟩ := pyIsNumericStr_iff.mp hnum
    rw [hres, zfill_numeric hnum hlen]
    have hallz : ∀ c ∈ List.replicate (13 - (removeSpecials (pyStrip v)).length) 48 ++
        removeSpecials (pyStrip v), pyIsNumericCp c = true := by
      intro c hc
      rcases List.mem_append.mp hc with hc | hc
      · rw [(List.mem_replicate.mp hc).2]; decide
      · exact hall c hc
    obtain ⟨hz1, hz2⟩ := cleanIsbn_all_numeric_fix hallz
    rw [cleanIsbnStr_core_eq hz1 hz2, if_neg]
    intro hcc
    have : (List.replicate (13 - (removeSpecials (pyStrip v)).length) 48 ++
        removeSpecials (pyStrip v)).length = 13 := by
      rw [List.length_append, List.length_replicate]
      omega
    omega
  · have hres : cleanIsbnStr v = removeSpecials (pyStrip v) := by
      unfold cleanIsbnStr
      rw [if_neg hcond]
    rw [hres, cleanIsbnStr_core_eq hfix1 hfix2]
    rw [if_neg]
    intro hcc
    exact hcond ⟨hcc.1, hcc.2⟩

theorem cleanIsbnStr_eq_spec (v : PyStr) : cleanIsbnStr v = specNormalizeStr v := by
  unfold cleanIsbnStr specNormalizeStr
  by_cases h : pyIsNumericStr (removeSpecials (pyStrip v)) = true ∧
      (removeSpecials (pyStrip v)).length < 13
  · rw [if_pos h, if_pos ⟨pyIsNumericStr_iff.mp h.1, h.2⟩, zfill_numeric h.1 h.2]
  · rw [if_neg h, if_neg]
    intro hc
    exact h ⟨pyIsNumericStr_iff.mpr hc.1, hc.2⟩

/-! ### Claims C5, C6, C10 -/

/-- C5: clean_isbn is total on optional strings and matches the spec's
    description of IdentifierNormalizer.normalize exactly: null becomes the
    empty string; otherwise strip whitespace, remove U+200B, U+00A0 and
    U+FEFF, and zero-pad purely-numeric strings shorter than 13 to width 13,
    returning everything else as-is.  The spec's three examples are included:
    normalize of 123 is 0000000000123, normalize of 9780134685991 is itself,
    normalize of null is the empty string. -/
theorem normalize_matches_spec :
    (∀ x : Cell, cleanIsbnCell x = Cell.s (specNormalize x)) ∧
    cleanIsbnCell (Cell.s [49, 50, 51]) = Cell.s z123S ∧
    cleanIsbnCell (Cell.s [57, 55, 56, 48, 49, 51, 52, 54, 56, 53, 57, 57, 49]) =
      Cell.s [57, 55, 56, 48, 49, 51, 52, 54, 56, 53, 57, 57, 49] ∧
    cleanIsbnCell Cell.na = Cell.s [] := by
  refine ⟨?_, by decide, by decide, rfl⟩
  intro x
  cases x with
  | na => rfl
  | s v => exact congrArg Cell.s (cleanIsbnStr_eq_spec v)
  | num v => exact congrArg Cell.s (cleanIsbnStr_eq_spec v)

/-- C6 counterexample: normalize is not idempotent on the code.  On the
    string ZWSP-space-123-space-ZWSP, strip runs before the ZWSP removal, so
    one application yields space-123-space while a second application strips
    and then zero-pads it. -/
theorem normalize_not_idempotent_ev :
    cleanIsbnCell (cleanIsbnCell (Cell.s [0x200b, 32, 49, 50, 51, 32, 0x200b])) ≠
      cleanIsbnCell (Cell.s [0x200b, 32, 49, 50, 51, 32, 0x200b]) := by decide

/-- C6 (amended): normalize is idempotent on every input whose string contains
    no zero-width space (U+200B) and no byte-order mark (U+FEFF); those two
    non-whitespace characters are the only ones whose removal (which happens
    after stripping) can expose fresh leading or trailing whitespace. -/
theorem normalize_idempotent_no_invisibles (x : Cell)
    (hx : ∀ c ∈ cellToStr x, c ≠ 0x200b ∧ c ≠ 0xfeff) :
    cleanIsbnCell (cleanIsbnCell x) = cleanIsbnCell x := by
  cases x with
  | na => decide
  | s v => exact congrArg Cell.s (cleanIsbn_idem_str hx)
  | num v => exact congrArg Cell.s (cleanIsbn_idem_str hx)

/-- C6 witness: the amended idempotence applied at the string 123. -/
theorem normalize_idempotent_witness :
    cleanIsbnCell (cleanIsbnCell (Cell.s [49, 50, 51])) = cleanIsbnCell (Cell.s [49, 50, 51]) :=
  normalize_idempotent_no_invisibles (Cell.s [49, 50, 51]) (by decide)

/-- C10 counterexample: the claim's second half fails as stated.  The string
    space-12.5 contains non-numeric characters but is not returned unchanged:
    clean_isbn first strips the leading space. -/
theorem numeric_pad_claim_ev :
    cleanIsbnStr [32, 49, 50, 46, 53] ≠ [32, 49, 50, 46, 53] ∧
      pyIsNumericCp 46 = false ∧ pyIsNumericCp 32 = false := by decide

/-- C10 (amended): the numeric test is the Unicode numeric-character
    classification, not an ASCII-digit check.  Every nonempty string of fewer
    than 13 characters drawn from the Unicode numeric characters (Arabic-Indic
    digits, fullwidth digits, superscripts, circled numbers, ...) is left-padded
    with ASCII zeros to length 13; and every string that is already free of
    leading/trailing whitespace and of the removed invisible characters and
    contains at least one non-numeric character is returned unchanged (a string
    not in that cleaned form is first stripped and cleaned). -/
theorem unicode_numeric_padding :
    (∀ s : PyStr, s ≠ [] → s.length < 13 → (∀ c ∈ s, pyIsNumericCp c = true) →
      cleanIsbnStr s = List.replicate (13 - s.length) 48 ++ s) ∧
    (∀ s : PyStr, pyStrip s = s → removeSpecials s = s →
      (∃ c ∈ s, pyIsNumericCp c = false) → cleanIsbnStr s = s) := by
  constructor
  · intro s hne hlen hnum
    obtain ⟨h1, h2⟩ := cleanIsbn_all_numeric_fix hnum
    have hn : pyIsNumericStr s = true := pyIsNumericStr_iff.mpr ⟨hne, hnum⟩
    rw [cleanIsbnStr_core_eq h1 h2, if_pos ⟨hn, hlen⟩]
    exact zfill_numeric hn hlen
  · intro s h1 h2 hex
    obtain ⟨c, hc, hcn⟩ := hex
    rw [cleanIsbnStr_core_eq h1 h2, if_neg]
    intro hcc
    have := (pyIsNumericStr_iff.mp hcc.1).2 c hc
    rw [this] at hcn
    exact absurd hcn (by simp)

/-- C10 witness: Arabic-Indic 123 pads to width 13 with ASCII zeros; the
    ASCII string 123-456 (containing the non-numeric hyphen) is unchanged. -/
theorem unicode_numeric_padding_ev :
    cleanIsbnStr [0x661, 0x662, 0x663] =
      List.replicate (13 - [0x661, 0x662, 0x663].length) 48 ++ [0x661, 0x662, 0x663] ∧
    cleanIsbnStr [49, 50, 51, 45, 52, 53, 54] = [49, 50, 51, 45, 52, 53, 54] := by
  constructor
  · exact unicode_numeric_padding.1 [0x661, 0x662, 0x663] (by decide) (by decide) (by decide)
  · exact unicode_numeric_padding.2 [49, 50, 51, 45, 52, 53, 54] (by decide) (by decide)
      ⟨45, by decide, by decide⟩

/-! ### Header detection (C4) -/

theorem detectHeaderAux_some :
    ∀ (l : List (List Cell)) (k i : Nat),
      detectHeaderAux k l = some i →
      k ≤ i ∧ i - k < l.length ∧ rowMatches (nthD [] l (i - k)) = true ∧
        ∀ j, j < i - k → rowMatches (nthD [] l j) = false := by
  intro l
  induction l with
  | nil => intro k i h; simp [detectHeaderAux] at h
  | cons r rs ih =>
    intro k i h
    by_cases hr : rowMatches r = true
    · have hk : k = i := by simpa [detectHeaderAux, hr] using h
      subst hk
      refine ⟨Nat.le_refl k, ?_, ?_, ?_⟩
      · simp
      · simpa using hr
      · intro j hj; omega
    · have h' : detectHeaderAux (k + 1) rs = some i := by
        simpa [detectHeaderAux, hr] using h
      obtain ⟨h1, h2, h3, h4⟩ := ih (k + 1) i h'
      have hik : i - k = (i - (k + 1)) + 1 := by omega
      refine ⟨by omega, ?_, ?_, ?_⟩
      · simp only [List.length_cons]; omega
      · rw [hik]; exact h3
      · intro j hj
        cases j with
        | zero => simpa using (Bool.eq_false_iff.mpr hr)
        | succ j' =>
          have : j' < i - (k + 1) := by omega
          exact h4 j' this

theorem detectHeaderAux_none :
    ∀ (l : List (List Cell)) (k : Nat),
      detectHeaderAux k l = none ↔ ∀ j, j < l.length → rowMatches (nthD [] l j) = false := by
  intro l
  induction l with
  | nil => intro k; simp [detectHeaderAux]
  | cons r rs ih =>
    intro k
    by_cases hr : rowMatches r = true
    · simp only [detectHeaderAux, hr, if_pos]
      constructor
      · intro h; exact absurd h (by simp)
      · intro h
        have := h 0 (by simp)
        rw [show nthD ([] : List Cell) (r :: rs) 0 = r from rfl] at this
        rw [hr] at this
        exact absurd this (by simp)
    · have hstep : detectHeaderAux k (r :: rs) = detectHeaderAux (k + 1) rs := by
        simp [detectHeaderAux, hr]
      rw [hstep, ih (k + 1)]
      constructor
      · intro h j hj
        cases j with
        | zero => exact Bool.eq_false_iff.mpr hr
        | succ j' =>
          simp only [List.length_cons] at hj
          exact h j' (by omega)
      · intro h j hj
        have := h (j + 1) (by simp only [List.length_cons]; omega)
        exact this

theorem nthD_take {α : Type} (d : α) :
    ∀ (l : List α) (n j : Nat), j < n → nthD d (l.take n) j = nthD d l j := by
  intro l
  induction l with
  | nil => intro n j _; simp
  | cons a t ih =>
    intro n j hj
    cases n with
    | zero => omega
    | succ m =>
      cases j with
      | zero => rfl
      | succ j' => exact ih m j' (by omega)

/-- C4: detect_header scans at most the first 20 rows and returns the 0-based
    index of the first row in which some cell, after uppercasing, removing
    punctuation and removing spaces, contains the substring ISBN13 or EAN; it
    fails (the raised error, modelled as none) exactly when no row among the
    first 20 matches, with no fallback. -/
theorem header_detection_spec (grid : List (List Cell)) :
    (∀ i, detectHeader grid = some i →
      i < 20 ∧ i < grid.length ∧ rowMatches (nthD [] grid i) = true ∧
        ∀ j, j < i → rowMatches (nthD [] grid j) = false) ∧
    (detectHeader grid = none ↔ ∀ j, j < 20 → rowMatches (nthD [] grid j) = false) := by
  have hlen : (grid.take 20).length = min 20 grid.length := List.length_take 20 grid
  constructor
  · intro i h
    obtain ⟨_, h2, h3, h4⟩ := detectHeaderAux_some (grid.take 20) 0 i h
    simp only [Nat.sub_zero] at h2 h3 h4
    rw [hlen] at h2
    have hi20 : i < 20 := lt_of_lt_of_le h2 (min_le_left _ _)
    have hig : i < grid.length := lt_of_lt_of_le h2 (min_le_right _ _)
    rw [nthD_take [] grid 20 i hi20] at h3
    refine ⟨hi20, hig, h3, ?_⟩
    intro j hj
    have := h4 j hj
    rwa [nthD_take [] grid 20 j (by omega)] at this
  · constructor
    · intro h j hj20
      have hall := (detectHeaderAux_none (grid.take 20) 0).mp h
      by_cases hj : j < (grid.take 20).length
      · have := hall j hj
        rwa [nthD_take [] grid 20 j hj20] at this
      · rw [hlen] at hj
        have hge : grid.length ≤ j := by omega
        rw [nthD_ge [] grid j hge]
        rfl
    · intro hall
      apply (detectHeaderAux_none (grid.take 20) 0).mpr
      intro j hj
      rw [hlen] at hj
      have hj20 : j < 20 := lt_of_lt_of_le hj (min_le_left _ _)
      rw [nthD_take [] grid 20 j hj20]
      exact hall j hj20

/-- C4 witness: on a grid whose rows 0 to 2 have no matching cell and whose
    row 3 holds the cell isbn13, detect_header returns 3. -/
theorem header_detection_spec_ev :
    detectHeader [[Cell.s [120]], [], [Cell.na], [Cell.s [105, 115, 98, 110, 49, 51]]] = some 3 ∧
    3 < 20 ∧
    rowMatches (nthD [] [[Cell.s [120]], [], [Cell.na],
      [Cell.s [105, 115, 98, 110, 49, 51]]] 3) = true := by
  have h := (header_detection_spec
    [[Cell.s [120]], [], [Cell.na], [Cell.s [105, 115, 98, 110, 49, 51]]]).1 3 (by decide)
  exact ⟨by decide, h.1, h.2.2.1⟩

/-! ### Exclusion-set loader (C9) -/

/-- C9: extract_isbns is total (a parse failure, modelled as the none input,
    yields the empty set; nothing is raised), and on a successful parse its
    result contains exactly the normalized values of the flattened cells whose
    string form is purely numeric. -/
theorem exclusion_loader_spec :
    extractIsbns none = [] ∧
    ∀ (g : List (List Cell)) (x : PyStr),
      x ∈ extractIsbns (some g) ↔
        ∃ v ∈ g.flatten, pyIsNumericStr (cellToStr v) = true ∧ x = cleanIsbnVal v := by
  refine ⟨rfl, ?_⟩
  intro g x
  simp only [extractIsbns, List.mem_map, List.mem_filter]
  constructor
  · rintro ⟨v, ⟨hv, hn⟩, rfl⟩
    exact ⟨v, hv, hn, rfl⟩
  · rintro ⟨v, hv, hn, rfl⟩
    exact ⟨v, ⟨hv, hn⟩, rfl⟩

/-! ### Comparator (C7, C8) -/

/-- C7: for all tables, the new items of compare(A,B) are exactly the inactive
    items of compare(B,A): both are the rows of B whose key (first-column
    value) does not occur in A's key column. -/
theorem compare_new_inactive_symm (A B nA iA nB iB : DF)
    (h1 : compareT A B = some (nA, iA)) (h2 : compareT B A = some (nB, iB)) :
    nA = iB := by
  unfold compareT at h1 h2
  cases hA : A.cols with
  | nil => rw [hA] at h1; exact absurd h1 (by simp)
  | cons ka ta =>
    cases hB : B.cols with
    | nil => rw [hB] at h1; exact absurd h1 (by simp)
    | cons kb tb =>
      rw [hA, hB] at h1 h2
      simp only [Option.some.injEq, Prod.mk.injEq] at h1 h2
      rw [← h1.1, ← h2.2]

/-- C8: both comparator outputs are row-subsequences of their source tables
    with the source's column schema unchanged: newItems keeps clean2's columns
    and a sublist of its rows in order, inactiveItems likewise for clean1. -/
theorem compare_outputs_subtables (d1 d2 n i : DF)
    (h : compareT d1 d2 = some (n, i)) :
    n.cols = d2.cols ∧ n.rows.Sublist d2.rows ∧ i.cols = d1.cols ∧ i.rows.Sublist d1.rows := by
  unfold compareT at h
  cases hA : d1.cols with
  | nil => rw [hA] at h; exact absurd h (by simp)
  | cons ka ta =>
    cases hB : d2.cols with
    | nil => rw [hB] at h; exact absurd h (by simp)
    | cons kb tb =>
      rw [hA, hB] at h
      simp only [Option.some.injEq, Prod.mk.injEq] at h
      obtain ⟨h1, h2⟩ := h
      refine ⟨?_, ?_, ?_, ?_⟩
      · rw [← h1]
      · rw [← h1]; exact List.filter_sublist _
      · rw [← h2]
      · rw [← h2]; exact List.filter_sublist _

/-- C7 witness: with keys 1,2,3 against 2,3,4, the new items of the forward
    comparison equal the inactive items of the reversed one. -/
theorem compare_new_inactive_symm_ev :
    compareT wCmpA wCmpB =
      some (⟨wCmpB.cols, [[Cell.s [52]]]⟩, ⟨wCmpA.cols, [[Cell.s [49]]]⟩) ∧
    compareT wCmpB wCmpA =
      some (⟨wCmpA.cols, [[Cell.s [49]]]⟩, ⟨wCmpB.cols, [[Cell.s [52]]]⟩) ∧
    (⟨wCmpB.cols, [[Cell.s [52]]]⟩ : DF) = ⟨wCmpB.cols, [[Cell.s [52]]]⟩ := by
  refine ⟨by decide, by decide, ?_⟩
  exact compare_new_inactive_symm wCmpA wCmpB
    ⟨wCmpB.cols, [[Cell.s [52]]]⟩ ⟨wCmpA.cols, [[Cell.s [49]]]⟩
    ⟨wCmpA.cols, [[Cell.s [49]]]⟩ ⟨wCmpB.cols, [[Cell.s [52]]]⟩ (by decide) (by decide)

/-- C8 witness: the outputs of comparing keys 1,2 with keys 2,3 are
    subsequences of their sources with unchanged schema. -/
theorem compare_outputs_subtables_ev :
    (⟨wCmpD.cols, [[Cell.s [51]]]⟩ : DF).cols = wCmpD.cols ∧
    (⟨wCmpD.cols, [[Cell.s [51]]]⟩ : DF).rows.Sublist wCmpD.rows ∧
    (⟨wCmpC.cols, [[Cell.s [49]]]⟩ : DF).cols = wCmpC.cols ∧
    (⟨wCmpC.cols, [[Cell.s [49]]]⟩ : DF).rows.Sublist wCmpC.rows :=
  compare_outputs_subtables wCmpC wCmpD
    ⟨wCmpD.cols, [[Cell.s [51]]]⟩ ⟨wCmpC.cols, [[Cell.s [49]]]⟩ (by decide)

/-! ### Pipeline lemmas (C1, C2, C3) -/

theorem map_congr_mem {α β : Type} (f g : α → β) :
    ∀ (l : List α), (∀ a ∈ l, f a = g a) → l.map f = l.map g := by
  intro l
  induction l with
  | nil => intro _; rfl
  | cons a t ih =>
    intro h
    rw [List.map_cons, List.map_cons, h a (List.mem_cons_self a t),
      ih (fun b hb => h b (List.mem_cons_of_mem a hb))]

theorem map_const_replicate {α β : Type} (f : α → β) (b : β) :
    ∀ (l : List α), (∀ a ∈ l, f a = b) → l.map f = List.replicate l.length b := by
  intro l
  induction l with
  | nil => intro _; rfl
  | cons a t ih =>
    intro h
    rw [List.map_cons, h a (List.mem_cons_self a t), List.length_cons, List.replicate_succ,
      ih (fun b hb => h b (List.mem_cons_of_mem a hb))]

theorem filter_map_mem {α β : Type} (f : α → β) (p : β → Bool) (q : α → Bool) :
    ∀ (l : List α), (∀ a ∈ l, p (f a) = q a) → (l.map f).filter p = (l.filter q).map f := by
  intro l
  induction l with
  | nil => intro _; rfl
  | cons a t ih =>
    intro h
    have ha := h a (List.mem_cons_self a t)
    have ht := ih (fun b hb => h b (List.mem_cons_of_mem a hb))
    rw [List.map_cons, List.filter_cons, List.filter_cons, ha]
    by_cases hq : q a = true
    · rw [if_pos hq, if_pos hq, List.map_cons, ht]
    · rw [if_neg hq, if_neg hq, ht]

theorem applyExclusion_cols (d : DF) (c : PyStr) (rem : Option (List PyStr)) :
    (applyExclusion d c rem).cols = d.cols := by
  cases rem <;> rfl

theorem setColAll_cols_of_mem {d : DF} {nm : PyStr} (cl : Cell) (h : nm ∈ d.cols) :
    (setColAll d nm cl).cols = d.cols := by
  unfold setColAll
  rw [if_pos h]

theorem mem_setColAll_cols {d : DF} {nm y : PyStr} {cl : Cell}
    (h : y ∈ (setColAll d nm cl).cols) : y ∈ d.cols ∨ y = nm := by
  unfold setColAll at h
  by_cases hm : nm ∈ d.cols
  · rw [if_pos hm] at h; exact Or.inl h
  · rw [if_neg hm] at h
    rcases List.mem_append.mp h with h1 | h1
    · exact Or.inl h1
    · exact Or.inr (List.mem_singleton.mp h1)

theorem selectCols_rect (d1 : DF) (nms : List PyStr) :
    ∀ r ∈ (selectCols d1 nms).rows, r.length = nms.length := by
  intro r hr
  unfold selectCols at hr
  obtain ⟨r0, _, rfl⟩ := List.mem_map.mp hr
  exact List.length_map _ _

theorem setColAll_rect {d : DF} {nm : PyStr} {cl : Cell}
    (h : ∀ r ∈ d.rows, r.length = d.cols.length) :
    ∀ r ∈ (setColAll d nm cl).rows, r.length = (setColAll d nm cl).cols.length := by
  intro r hr
  unfold setColAll at hr ⊢
  by_cases hm : nm ∈ d.cols
  · rw [if_pos hm] at hr ⊢
    obtain ⟨r0, hr0, rfl⟩ := List.mem_map.mp hr
    rw [length_modifyCell]
    exact h r0 hr0
  · rw [if_neg hm] at hr ⊢
    obtain ⟨r0, hr0, rfl⟩ := List.mem_map.mp hr
    simp only [List.length_append, List.length_cons, List.length_nil]
    rw [h r0 hr0]

theorem setColAll_rows_len (d : DF) (nm : PyStr) (cl : Cell) :
    (setColAll d nm cl).rows.length = d.rows.length := by
  unfold setColAll
  by_cases hm : nm ∈ d.cols
  · rw [if_pos hm]; exact List.length_map _ _
  · rw [if_neg hm]; exact List.length_map _ _

theorem getCol_setColAll_self {d : DF} {nm : PyStr} {cl : Cell}
    (hrect : ∀ r ∈ d.rows, r.length = d.cols.length) :
    getCol (setColAll d nm cl) nm = List.replicate d.rows.length cl := by
  unfold setColAll getCol
  by_cases hm : nm ∈ d.cols
  · rw [if_pos hm]
    simp only [List.map_map]
    have hlt : colIdx d.cols nm < d.cols.length := colIdx_lt_of_mem hm
    have : ∀ r ∈ d.rows,
        nthD Cell.na (modifyCell (colIdx d.cols nm) (fun _ => cl) r) (colIdx d.cols nm) = cl := by
      intro r hr
      rw [nthD_modifyCell_self _ r _ (by rw [hrect r hr]; exact hlt)]
    exact map_const_replicate _ cl d.rows this
  · rw [if_neg hm]
    simp only [List.map_map]
    have hidx : colIdx (d.cols ++ [nm]) nm = d.cols.length := colIdx_append_self d.cols nm hm
    have : ∀ r ∈ d.rows,
        nthD Cell.na (r ++ [cl]) (colIdx (d.cols ++ [nm]) nm) = cl := by
      intro r hr
      rw [hidx, ← hrect r hr]
      exact nthD_append_last Cell.na r cl
    exact map_const_replicate _ cl d.rows this

theorem getCol_reindex_absent (d : DF) (nms : List PyStr) (fill : Cell) (nm : PyStr)
    (hmem : nm ∈ nms) (habs : nm ∉ d.cols) :
    getCol (reindexCols d nms fill) nm = List.replicate d.rows.length fill := by
  unfold getCol reindexCols
  simp only [List.map_map]
  apply map_const_replicate
  intro r _
  simp only [Function.comp]
  rw [nthD_map _ _ nm nms (colIdx nms nm) (colIdx_lt_of_mem hmem),
    nthD_colIdx nm nms nm hmem, if_neg habs]

theorem getCol_reindex_present (d : DF) (nms : List PyStr) (fill : Cell) (nm : PyStr)
    (hmem : nm ∈ nms) (hpres : nm ∈ d.cols) :
    getCol (reindexCols d nms fill) nm = getCol d nm := by
  unfold getCol reindexCols
  simp only [List.map_map]
  apply map_congr_mem
  intro r _
  simp only [Function.comp]
  rw [nthD_map _ _ nm nms (colIdx nms nm) (colIdx_lt_of_mem hmem),
    nthD_colIdx nm nms nm hmem, if_pos hpres]

theorem selectCols_cols (d1 : DF) (nms : List PyStr) : (selectCols d1 nms).cols = nms := rfl

theorem reindexCols_rows_len (d : DF) (nms : List PyStr) (fill : Cell) :
    (reindexCols d nms fill).rows.length = d.rows.length := List.length_map _ _

theorem projectAndPad_eq (d1 : DF) (req : List PyStr) (cur : PyStr) :
    projectAndPad d1 req cur =
      reindexCols
        (setColAll
          (if curS ∈ (selectCols d1 (req.filter (fun x => decide (x ∈ d1.cols)))).cols
           then selectCols d1 (req.filter (fun x => decide (x ∈ d1.cols)))
           else setColAll (selectCols d1 (req.filter (fun x => decide (x ∈ d1.cols)))) curS
             (Cell.s []))
          curS (Cell.s cur))
        req (Cell.s []) := rfl

theorem projectAndPad_cols (d1 : DF) (req : List PyStr) (cur : PyStr) :
    (projectAndPad d1 req cur).cols = req := rfl

theorem projectAndPad_row_len (d1 : DF) (req : List PyStr) (cur : PyStr) :
    ∀ r ∈ (projectAndPad d1 req cur).rows, r.length = req.length := by
  intro r hr
  rw [projectAndPad_eq] at hr
  unfold reindexCols at hr
  obtain ⟨r0, _, rfl⟩ := List.mem_map.mp hr
  exact List.length_map _ _

theorem projectAndPad_absent (d1 : DF) (req : List PyStr) (cur : PyStr) (nm : PyStr)
    (hreq : nm ∈ req) (hnm : nm ∉ d1.cols) (hcur : nm ≠ curS) :
    getCol (projectAndPad d1 req cur) nm =
      List.replicate (projectAndPad d1 req cur).rows.length (Cell.s []) := by
  rw [projectAndPad_eq]
  set d2 := selectCols d1 (req.filter (fun x => decide (x ∈ d1.cols))) with hd2
  have hsel : nm ∉ d2.cols := by
    rw [hd2, selectCols_cols]
    intro hmem
    have := (List.mem_filter.mp hmem).2
    rw [decide_eq_true_eq] at this
    exact hnm this
  set d3 := if curS ∈ d2.cols then d2 else setColAll d2 curS (Cell.s []) with hd3
  have hd3m : nm ∉ d3.cols := by
    rw [hd3]
    by_cases hm : curS ∈ d2.cols
    · rw [if_pos hm]; exact hsel
    · rw [if_neg hm]
      intro hmem
      rcases mem_setColAll_cols hmem with h1 | h1
      · exact hsel h1
      · exact hcur h1
  have hd4m : nm ∉ (setColAll d3 curS (Cell.s cur)).cols := by
    intro hmem
    rcases mem_setColAll_cols hmem with h1 | h1
    · exact hd3m h1
    · exact hcur h1
  rw [getCol_reindex_absent (setColAll d3 curS (Cell.s cur)) req (Cell.s []) nm hreq hd4m,
    reindexCols_rows_len]

theorem projectAndPad_cur (d1 : DF) (req : List PyStr) (cur : PyStr) (hcm : curS ∈ req) :
    getCol (projectAndPad d1 req cur) curS =
      List.replicate (projectAndPad d1 req cur).rows.length (Cell.s cur) := by
  rw [projectAndPad_eq]
  set d2 := selectCols d1 (req.filter (fun x => decide (x ∈ d1.cols))) with hd2
  have hd2rect : ∀ r ∈ d2.rows, r.length = d2.cols.length := by
    intro r hr
    rw [hd2] at hr ⊢
    rw [selectCols_cols]
    exact selectCols_rect d1 _ r hr
  set d3 := if curS ∈ d2.cols then d2 else setColAll d2 curS (Cell.s []) with hd3
  have hd3rect : ∀ r ∈ d3.rows, r.length = d3.cols.length := by
    rw [hd3]
    by_cases hm : curS ∈ d2.cols
    · rw [if_pos hm]; exact hd2rect
    · rw [if_neg hm]; exact setColAll_rect hd2rect
  have hd3cur : curS ∈ d3.cols := by
    rw [hd3]
    by_cases hm : curS ∈ d2.cols
    · rw [if_pos hm]; exact hm
    · rw [if_neg hm]
      unfold setColAll
      rw [if_neg hm]
      exact List.mem_append_right _ (List.mem_singleton.mpr rfl)
  have hd4cur : curS ∈ (setColAll d3 curS (Cell.s cur)).cols := by
    rw [setColAll_cols_of_mem _ hd3cur]
    exact hd3cur
  have hval : getCol (setColAll d3 curS (Cell.s cur)) curS =
      List.replicate d3.rows.length (Cell.s cur) := getCol_setColAll_self hd3rect
  rw [getCol_reindex_present (setColAll d3 curS (Cell.s cur)) req (Cell.s []) curS hcm hd4cur,
    hval, reindexCols_rows_len, setColAll_rows_len]

theorem no_hash_cleanColName (v : PyStr) : (35 : Nat) ∉ cleanColName v := by
  intro h
  unfold cleanColName regexStripPunct at h
  have h2 := (List.mem_filter.mp h).2
  rw [show (pyIsWordCp 35 || pyIsSpaceCp 35) = false from by decide] at h2
  exact absurd h2 (by simp)

theorem eanHash_not_cleaned (cs : List PyStr) : eanHashS ∉ cs.map cleanColName := by
  intro h
  obtain ⟨v, _, hv⟩ := List.mem_map.mp h
  have h35 : (35 : Nat) ∈ cleanColName v := by
    rw [hv]
    decide
  exact no_hash_cleanColName v h35

theorem processFile_eq (df : DF) (c : PyStr)
    (hnd : (df.cols.map cleanColName).Nodup)
    (hc : (df.cols.map cleanColName).find? isIdColName = some c) :
    processFile df =
      some (⟨df.cols.map cleanColName,
             df.rows.map (procT (df.cols.map cleanColName) c)⟩, c) := by
  unfold processFile
  rw [if_pos hnd, hc]
  cases hq : (df.cols.map cleanColName).find? isQtyColName with
  | none =>
    simp only [mapCol]
    have he : List.map (modifyCell (colIdx (List.map cleanColName df.cols) c) cleanIsbnCell)
          df.rows
        = List.map (procT (List.map cleanColName df.cols) c) df.rows := by
      apply map_congr_mem
      intro r _
      unfold procT
      rw [hq]
    rw [he]
  | some s =>
    simp only [mapCol, List.map_map]
    have he : List.map (modifyCell (colIdx (List.map cleanColName df.cols) s) toNumericCell ∘
          modifyCell (colIdx (List.map cleanColName df.cols) c) cleanIsbnCell) df.rows
        = List.map (procT (List.map cleanColName df.cols) c) df.rows := by
      apply map_congr_mem
      intro r _
      simp only [Function.comp]
      unfold procT
      rw [hq]
    rw [he]

theorem cleanFile_none_of_bad (df : DF)
    (h : ¬((df.cols.map cleanColName).Nodup ∧
        ∃ c, (df.cols.map cleanColName).find? isIdColName = some c))
    (cur : PyStr) (rem : Option (List PyStr)) : cleanFile df cur rem = none := by
  have hp : processFile df = none := by
    unfold processFile
    by_cases hnd : (df.cols.map cleanColName).Nodup
    · rw [if_pos hnd]
      cases hc : (df.cols.map cleanColName).find? isIdColName with
      | none => rfl
      | some c => exact absurd ⟨hnd, c, hc⟩ h
    · rw [if_neg hnd]
  unfold cleanFile
  rw [hp]

theorem cleanFile_eq (df : DF) (cur : PyStr) (rem : Option (List PyStr)) (c : PyStr)
    (hnd : (df.cols.map cleanColName).Nodup)
    (hc : (df.cols.map cleanColName).find? isIdColName = some c) :
    cleanFile df cur rem =
      some (projectAndPad
        (applyExclusion
          ⟨df.cols.map cleanColName, df.rows.map (procT (df.cols.map cleanColName) c)⟩ c rem)
        (if isbn13S ∈ df.cols.map cleanColName then reqISBN else reqEAN) cur) := by
  unfold cleanFile
  rw [processFile_eq df c hnd hc]

/-- For C2: the whole shape statement, over any table already cleaned to d1
    and any 12-column template containing CUR. -/
theorem cleanFile_shape_aux (d1 : DF) (req : List PyStr) (cur : PyStr)
    (hc12 : req.length = 12) (hcm : curS ∈ req) :
    (projectAndPad d1 req cur).cols = req ∧
    (∀ r ∈ (projectAndPad d1 req cur).rows, r.length = 12) ∧
    (∀ nm, nm ∈ req → nm ∉ d1.cols → nm ≠ curS →
      getCol (projectAndPad d1 req cur) nm =
        List.replicate (projectAndPad d1 req cur).rows.length (Cell.s [])) ∧
    getCol (projectAndPad d1 req cur) curS =
      List.replicate (projectAndPad d1 req cur).rows.length (Cell.s cur) := by
  refine ⟨projectAndPad_cols d1 req cur, ?_, ?_, projectAndPad_cur d1 req cur hcm⟩
  · intro r hr
    rw [projectAndPad_row_len d1 req cur r hr, hc12]
  · intro nm h1 h2 h3
    exact projectAndPad_absent d1 req cur nm h1 h2 h3

/-! ### Claims C1, C2 -/

/-- C2 counterexample: a template column absent from the source is not always
    filled with empty strings.  On a source with single column ean (so the EAN
    template is selected and CUR is absent from the source), the output CUR
    column holds the currency value USD, not the empty string. -/
theorem cleaned_cur_not_empty_ev :
    (cleanFile ⟨[[101, 97, 110]], [[Cell.s [49, 50, 51]]]⟩ usdS none).map
        (fun o => getCol o curS) = some [Cell.s usdS] ∧
    curS ∈ reqEAN ∧
    curS ∉ ([[101, 97, 110]] : List PyStr).map cleanColName ∧
    Cell.s usdS ≠ Cell.s [] := by
  refine ⟨?_, by decide, by decide, by decide⟩
  decide

/-- C2 (amended): on every success, the cleaned table has exactly the twelve
    template columns in template order (ISBN template when the cleaned source
    columns contain the literal name ISBN13, EAN template otherwise); every
    template column other than CUR that is absent from the cleaned source
    columns is filled with empty strings; and the CUR column is filled with
    the selected currency value in every row, not the empty string. -/
theorem cleaned_table_schema (df : DF) (cur : PyStr) (rem : Option (List PyStr)) (out : DF)
    (h : cleanFile df cur rem = some out) :
    out.cols = (if isbn13S ∈ df.cols.map cleanColName then reqISBN else reqEAN) ∧
    (∀ r ∈ out.rows, r.length = 12) ∧
    (∀ nm, nm ∈ (if isbn13S ∈ df.cols.map cleanColName then reqISBN else reqEAN) →
      nm ∉ df.cols.map cleanColName → nm ≠ curS →
      getCol out nm = List.replicate out.rows.length (Cell.s [])) ∧
    getCol out curS = List.replicate out.rows.length (Cell.s cur) := by
  by_cases hok : (df.cols.map cleanColName).Nodup ∧
      ∃ c, (df.cols.map cleanColName).find? isIdColName = some c
  · obtain ⟨hnd, c, hc⟩ := hok
    rw [cleanFile_eq df cur rem c hnd hc] at h
    have hout : out = projectAndPad
        (applyExclusion
          ⟨df.cols.map cleanColName, df.rows.map (procT (df.cols.map cleanColName) c)⟩ c rem)
        (if isbn13S ∈ df.cols.map cleanColName then reqISBN else reqEAN) cur :=
      (Option.some.inj h).symm
    have hc12 : (if isbn13S ∈ df.cols.map cleanColName then reqISBN else reqEAN).length = 12 := by
      by_cases hm : isbn13S ∈ df.cols.map cleanColName
      · rw [if_pos hm]; decide
      · rw [if_neg hm]; decide
    have hcm : curS ∈ (if isbn13S ∈ df.cols.map cleanColName then reqISBN else reqEAN) := by
      by_cases hm : isbn13S ∈ df.cols.map cleanColName
      · rw [if_pos hm]; decide
      · rw [if_neg hm]; decide
    obtain ⟨s1, s2, s3, s4⟩ := cleanFile_shape_aux
      (applyExclusion
        ⟨df.cols.map cleanColName, df.rows.map (procT (df.cols.map cleanColName) c)⟩ c rem)
      (if isbn13S ∈ df.cols.map cleanColName then reqISBN else reqEAN) cur hc12 hcm
    subst hout
    refine ⟨s1, s2, ?_, s4⟩
    intro nm h1 h2 h3
    apply s3 nm h1 _ h3
    rw [applyExclusion_cols]
    exact h2
  · rw [cleanFile_none_of_bad df hok cur rem] at h
    exact absurd h (by simp)

/-- C2 witness: on the source with single column ean and one row, the cleaned
    table is the EAN template with CUR holding USD and all else empty. -/
theorem cleaned_table_schema_ev :
    wOutEan.cols = (if isbn13S ∈ wDfEan3.cols.map cleanColName then reqISBN else reqEAN) ∧
    (∀ r ∈ wOutEan.rows, r.length = 12) ∧
    getCol wOutEan curS = List.replicate wOutEan.rows.length (Cell.s usdS) := by
  have h := cleaned_table_schema wDfEan3 usdS none wOutEan (by decide)
  exact ⟨h.1, h.2.1, h.2.2.2⟩

/-- C1 (code-bug evidence): on every successful run in which the parsed table
    has no cleaned column literally named ISBN13 (every EAN-template source),
    the output's first column EAN-space-hash is filled with empty strings for
    every row: the column-name cleaning removes the hash character, so no
    cleaned source column can ever match the EAN template's identifier column,
    and the comparison key cannot equal the normalized source identifiers. -/
theorem ean_identifier_column_blank (df : DF) (cur : PyStr) (rem : Option (List PyStr)) (out : DF)
    (h : cleanFile df cur rem = some out)
    (hno : isbn13S ∉ df.cols.map cleanColName) :
    out.cols = reqEAN ∧
    getCol out eanHashS = List.replicate out.rows.length (Cell.s []) := by
  by_cases hok : (df.cols.map cleanColName).Nodup ∧
      ∃ c, (df.cols.map cleanColName).find? isIdColName = some c
  · obtain ⟨hnd, c, hc⟩ := hok
    rw [cleanFile_eq df cur rem c hnd hc, if_neg hno] at h
    have hout : out = projectAndPad
        (applyExclusion
          ⟨df.cols.map cleanColName, df.rows.map (procT (df.cols.map cleanColName) c)⟩ c rem)
        reqEAN cur := (Option.some.inj h).symm
    subst hout
    refine ⟨projectAndPad_cols _ reqEAN cur, ?_⟩
    apply projectAndPad_absent
    · decide
    · rw [applyExclusion_cols]
      exact eanHash_not_cleaned df.cols
    · decide
  · rw [cleanFile_none_of_bad df hok cur rem] at h
    exact absurd h (by simp)

/-- C1 witness: the concrete EAN source with column ean-space-hash and one
    row with identifier 123 cleans to a table whose identifier column is
    empty, although the normalized source identifier is 0000000000123. -/
theorem ean_identifier_column_blank_ev :
    wOutEan.cols = reqEAN ∧
    getCol wOutEan eanHashS = List.replicate wOutEan.rows.length (Cell.s []) ∧
    cleanIsbnCell (Cell.s [49, 50, 51]) = Cell.s z123S ∧
    Cell.s z123S ≠ Cell.s [] := by
  have h := ean_identifier_column_blank wDfEan usdS none wOutEan (by decide) (by decide)
  exact ⟨h.1, h.2, by decide, by decide⟩

/-! ### Claim C3 -/

/-- C3 counterexample: when the identifier column is also selected as the
    quantity column (here the single column eanstock matches both EAN and
    STOCK), the numeric coercion replaces the normalized identifier before the
    exclusion test, so a row whose normalized identifier 0000000000123 is in
    the exclusion set is nevertheless retained (1 row in the output, where the
    claim demands 0). -/
theorem exclusion_qty_collision_ev :
    (cleanFile wDfQty usdS (some [z123S])).map (fun o => o.rows.length) = some 1 ∧
    cleanIsbnCell (Cell.s [49, 50, 51]) = Cell.s z123S ∧
    z123S ∈ [z123S] := by
  refine ⟨?_, by decide, by decide⟩
  decide

/-- C3 (amended): provided the identifier column is not also selected as the
    quantity column, cleaning with an exclusion set equals cleaning the source
    from which exactly the rows whose normalized identifier-column value is a
    member of the set have been removed, in original order. -/
theorem exclusion_filters_source_rows (df : DF) (cur : PyStr) (rs : List PyStr) (c : PyStr)
    (hc : (df.cols.map cleanColName).find? isIdColName = some c)
    (hqc : (df.cols.map cleanColName).find? isQtyColName ≠ some c)
    (hrect : ∀ r ∈ df.rows, r.length = df.cols.length) :
    cleanFile df cur (some rs) =
      cleanFile ⟨df.cols, df.rows.filter (fun r =>
        !(rs.any (fun t => decide (cleanIsbnCell
            (nthD Cell.na r (colIdx (df.cols.map cleanColName) c)) = Cell.s t))))⟩ cur none := by
  by_cases hnd : (df.cols.map cleanColName).Nodup
  · have hcm : c ∈ df.cols.map cleanColName := List.mem_of_find?_eq_some hc
    have hlt : colIdx (df.cols.map cleanColName) c < (df.cols.map cleanColName).length :=
      colIdx_lt_of_mem hcm
    rw [List.length_map] at hlt
    have hkey : ∀ r ∈ df.rows,
        nthD Cell.na (procT (df.cols.map cleanColName) c r) (colIdx (df.cols.map cleanColName) c)
          = cleanIsbnCell (nthD Cell.na r (colIdx (df.cols.map cleanColName) c)) := by
      intro r hr
      have hrl : colIdx (df.cols.map cleanColName) c < r.length := by
        rw [hrect r hr]
        exact hlt
      unfold procT
      cases hq : (df.cols.map cleanColName).find? isQtyColName with
      | none => exact nthD_modifyCell_self cleanIsbnCell r _ hrl
      | some s =>
        have hs : s ∈ df.cols.map cleanColName := List.mem_of_find?_eq_some hq
        have hsc : s ≠ c := fun he => hqc (he ▸ hq)
        have hne : colIdx (df.cols.map cleanColName) c ≠ colIdx (df.cols.map cleanColName) s :=
          colIdx_inj hcm hs (fun he => hsc he.symm)
        rw [nthD_modifyCell_ne toNumericCell _ _ _ hne]
        exact nthD_modifyCell_self cleanIsbnCell r _ hrl
    have hrows : (df.rows.map (procT (df.cols.map cleanColName) c)).filter
          (fun r => !(rs.any (fun t => decide (nthD Cell.na r
            (colIdx (df.cols.map cleanColName) c) = Cell.s t))))
        = (df.rows.filter (fun r => !(rs.any (fun t => decide (cleanIsbnCell
            (nthD Cell.na r (colIdx (df.cols.map cleanColName) c)) = Cell.s t))))).map
          (procT (df.cols.map cleanColName) c) := by
      apply filter_map_mem
      intro r hr
      rw [hkey r hr]
    rw [cleanFile_eq df cur (some rs) c hnd hc,
      cleanFile_eq ⟨df.cols, df.rows.filter (fun r =>
        !(rs.any (fun t => decide (cleanIsbnCell
            (nthD Cell.na r (colIdx (df.cols.map cleanColName) c)) = Cell.s t))))⟩
        cur none c hnd hc]
    simp only [applyExclusion]
    rw [hrows]
  · rw [cleanFile_none_of_bad df (fun hok => hnd hok.1) cur (some rs),
      cleanFile_none_of_bad ⟨df.cols, df.rows.filter (fun r =>
        !(rs.any (fun t => decide (cleanIsbnCell
            (nthD Cell.na r (colIdx (df.cols.map cleanColName) c)) = Cell.s t))))⟩
        (fun hok => hnd hok.1) cur none]

/-- C3 witness: the spec's own example.  An ean-keyed table with rows keyed
    0000000000123 and 0000000000456 and exclusion set containing the first
    key cleans to the same table as the pre-filtered source, and exactly one
    row (the one keyed 0000000000456) survives. -/
theorem exclusion_filters_source_rows_ev :
    cleanFile wDfExcl usdS (some [z123S]) =
      cleanFile ⟨wDfExcl.cols, wDfExcl.rows.filter (fun r =>
        !([z123S].any (fun t => decide (cleanIsbnCell
            (nthD Cell.na r (colIdx (wDfExcl.cols.map cleanColName) [69, 65, 78]))
          = Cell.s t))))⟩ usdS none ∧
    (cleanFile wDfExcl usdS (some [z123S])).map (fun o => o.rows.length) = some 1 := by
  refine ⟨?_, by decide⟩
  exact exclusion_filters_source_rows wDfExcl usdS [z123S] [69, 65, 78]
    (by decide) (by decide) (by decide)

end App
